import Mathlib

/-!
# Verification of the adoc-ptrack price tracker (`src/tracker.py`)

Shallow embedding of the price-tracker script: Python strings are Lean
`String`s (lists of characters), Python floats are exact rationals `ℚ`,
the on-disk history file is modelled as its list of newline-terminated
lines (the writer `save_price` emits exactly one line per record, and
fields are newline-free), and fallible operations return `Option`.

Python string primitives used by the script (`str.strip`, `str.split`,
`str.replace` with one-character arguments, `float` on plain decimal
literals) are embedded as executable Lean functions below.
-/

attribute [local semireducible] Rat.add Rat.sub Rat.mul Rat.inv Rat.ofScientific

namespace Tracker

/-- Python `str.strip()`: drop whitespace from both ends.
(The script only ever strips ASCII whitespace; `Char.isWhitespace`
covers space, tab, CR and LF.) -/
def pyStrip (s : String) : String :=
  ⟨((s.data.dropWhile Char.isWhitespace).reverse.dropWhile Char.isWhitespace).reverse⟩

/-- Python `s.replace(c, "")` for a one-character pattern `c`
(used for `text.replace("€", "")`). -/
def removeChar (c : Char) (s : String) : String :=
  ⟨s.data.filter (fun x => x ≠ c)⟩

/-- Python `s.replace(a, b)` for one-character `a`, `b`
(used for `text.replace(",", ".")`). -/
def replaceChar (a b : Char) (s : String) : String :=
  ⟨s.data.map (fun c => if c = a then b else c)⟩

/-- Python `s.split()` with no argument: split on whitespace runs,
discarding empty pieces. -/
def pySplitWhitespace (s : String) : List String :=
  ((s.data.splitOnP (fun c => c.isWhitespace)).filter (fun l => l ≠ [])).map
    (fun l => (⟨l⟩ : String))

/-- Python `s.split(sep)` for a one-character separator
(used for `line.split("|")`). -/
def pySplitOnChar (sep : Char) (s : String) : List String :=
  (s.data.splitOn sep).map (fun l => (⟨l⟩ : String))

/-- Numeric value of a digit string (most significant first). -/
def digitsVal (l : List Char) : Nat :=
  l.foldl (fun a c => a * 10 + (c.toNat - 48)) 0

/-- Sign handling of `float(s)`: an optional leading `'-'` or `'+'`. -/
def pyFloatSign : List Char → Bool × List Char
  | [] => (false, [])
  | ch :: r =>
      if ch = '-' then (true, r)
      else if ch = '+' then (false, r)
      else (false, ch :: r)

/-- Python `float(s)`, embedded for plain decimal literals: optional
whitespace, optional sign, digits with at most one decimal point
(`"1.234.56"` raises `ValueError`, i.e. `none`). Exponents, `inf`/`nan`
and digit underscores never occur in this program's inputs and are not
modelled. -/
def pyFloat? (s : String) : Option ℚ :=
  let p := pyFloatSign (pyStrip s).data
  let neg := p.1
  let u := p.2
  let mk : Int → Nat → Option ℚ := fun n d =>
    some (mkRat (if neg then -n else n) d)
  match u.splitOn '.' with
  | [i] =>
      if i ≠ [] ∧ i.all Char.isDigit then mk (digitsVal i) 1 else none
  | [i, f] =>
      if (i ≠ [] ∨ f ≠ []) ∧ i.all Char.isDigit ∧ f.all Char.isDigit then
        mk (digitsVal i * 10 ^ f.length + digitsVal f) (10 ^ f.length)
      else none
  | _ => none

/-- Decimal digits of `r / den` (requires `r < den`), up to `fuel`
digits, stopping when the remainder is zero. -/
def fracDigitChars (den : Nat) : Nat → Nat → List Char
  | _, 0 => []
  | r, fuel + 1 =>
      if r = 0 then []
      else Char.ofNat (48 + r * 10 / den) :: fracDigitChars den (r * 10 % den) fuel

/-- Python `str(x)` for a float `x`, embedded for exact decimal values:
sign, integer part, a decimal point, and the fractional digits (`"0"`
when the value is integral, as in Python's `str(90.0) = "90.0"`). -/
def formatPyFloat (q : ℚ) : String :=
  let sgn : List Char := if q.num < 0 then ['-'] else []
  let n := q.num.natAbs
  let ds := fracDigitChars q.den (n % q.den) 17
  ⟨sgn ++ (toString (n / q.den)).data ++ '.' :: (if ds = [] then ['0'] else ds)⟩

end Tracker

namespace Tracker

/-! ## History store (`load_last_price` / `save_price`)

The history file is modelled as `Option (List String)`: `none` when the
file does not exist, otherwise its list of lines. -/

/-- The line `save_price` writes for one record:
`f"{timestamp} | {product_name} | {price}"` (tracker.py:111). -/
def record_line (product_name timestamp : String) (price : ℚ) : String :=
  timestamp ++ " | " ++ product_name ++ " | " ++ formatPyFloat price

/-- `save_price` (tracker.py:106-114): append one record line to the
history file (opening with mode `"a"` creates a missing file, hence
plain lines in / lines out). The timestamp is a parameter: the script
formats `datetime.now` outside of the pure logic. -/
def save_price (lines : List String) (product_name : String) (timestamp : String)
    (price : ℚ) : List String :=
  lines ++ [record_line product_name timestamp price]

/-- The scan inside `load_last_price` (tracker.py:96-102), over the
already-reversed list of stripped, non-blank lines: split each line on
`"|"`; a line with exactly three parts whose middle part strips to the
product name returns `float(parts[2].strip())`, a `ValueError` there or
any other shape skips the line. -/
def load_last_from (product_name : String) : List String → Option ℚ
  | [] => none
  | line :: rest =>
      match pySplitOnChar '|' line with
      | [_, p1, p2] =>
          if pyStrip p1 = product_name then
            match pyFloat? (pyStrip p2) with
            | some v => some v
            | none => load_last_from product_name rest
          else load_last_from product_name rest
      | _ => load_last_from product_name rest

/-- `load_last_price` (tracker.py:91-103): `none` when the file is
absent; otherwise strip every line, drop blanks, and scan from the most
recent line backwards. -/
def load_last_price (store : Option (List String)) (product_name : String) : Option ℚ :=
  match store with
  | none => none
  | some raw => load_last_from product_name (((raw.map pyStrip).filter (fun l => l ≠ "")).reverse)

end Tracker

namespace Tracker

/-! ## Extractor (`parse_price`) -/

/-- The normalization on tracker.py:80:
`text.replace("€", "").replace(",", ".").split()[0]`; `none` when
`split()` is empty (Python raises `IndexError` there). -/
def price_token? (text : String) : Option String :=
  match pySplitWhitespace (replaceChar ',' '.' (removeChar '€' text)) with
  | [] => none
  | t :: _ => some t

/-- `parse_price` (tracker.py:69-87) over the chain of selector results:
each list entry is `select_one`'s text for one selector (`none`: no
element; `some ""`: an element with empty text — both skipped by the
`if el and el.get_text(strip=True)` guard). The first text whose first
whitespace token parses as a float wins; a `ValueError` from `float`
moves on to the next selector; an empty `split()` aborts the whole call
(`IndexError`, not caught inside `parse_price`); no selector matching
raises `ValueError` — failures are `none`. -/
def parse_price : List (Option String) → Option ℚ
  | [] => none
  | none :: rest => parse_price rest
  | some text :: rest =>
      if text = "" then parse_price rest
      else
        match price_token? text with
        | none => none
        | some tok =>
            match pyFloat? tok with
            | some v => some v
            | none => parse_price rest

end Tracker

namespace Tracker

/-! ## Fetcher decoding (`fetch_html`) -/

/-- Python's substring test `pat in s`. -/
def hasSubstr (s pat : String) : Bool :=
  s.data.tails.any (fun t => pat.data.isPrefixOf t)

/-- The body-decoding logic of `fetch_html` (tracker.py:47-65), after
`raise_for_status`. `contentText` is `response.content` decoded with
`errors="ignore"` (total, so a plain `String`); `responseText` is
`response.text`. `brotliRes`/`gzipRes` are the decompression outcomes:
`none` when `brotli.decompress` raises `brotli.error`, resp. when the
gzip path raises (the latter is caught by the outer `except`, yielding
`response.text`). The function is total: decoding failure never
propagates. -/
def fetch_decode (encoding contentText responseText : String)
    (brotliRes gzipRes : Option String) : String :=
  if hasSubstr encoding "br" then
    match brotliRes with
    | some h => h
    | none => contentText
  else if hasSubstr encoding "gzip" then
    match gzipRes with
    | some h => h
    | none => responseText
  else responseText

end Tracker

namespace Tracker

/-! ## Orchestrator (`main`, tracker.py:140-172)

One configured product contributes its name, the timestamp `save_price`
will stamp, and the outcome of `fetch_html` + the selector lookups:
`fetched = none` models `fetch_html` raising (network/HTTP error);
otherwise the list holds each selector's `select_one` text. -/

structure ProductInput where
  name : String
  timestamp : String
  fetched : Option (List (Option String))

/-- One iteration of the `for product in PRODUCTS` loop
(tracker.py:141-170): on fetch or parse failure, `continue` (store
untouched, no email); otherwise compare with `load_last_price`, email
iff a prior price exists and `diff = current - last < 0`, and always
`save_price` the current price. Returns the new store and whether the
notification path was taken. -/
def checkProduct (store : Option (List String)) (p : ProductInput) :
    Option (List String) × Bool :=
  match p.fetched with
  | none => (store, false)
  | some texts =>
      match parse_price texts with
      | none => (store, false)
      | some current =>
          let notified :=
            match load_last_price store p.name with
            | some l => decide (current - l < 0)
            | none => false
          (some (save_price (store.getD []) p.name p.timestamp current), notified)

/-- The whole loop of `main`: process every configured product in
order, threading the history store; collect each product's
notification flag. Totality of this function is the embedding of "the
run reaches the end of `main`". -/
def runAll : Option (List String) → List ProductInput → Option (List String) × List Bool
  | store, [] => (store, [])
  | store, p :: ps =>
      let r := checkProduct store p
      let rest := runAll r.1 ps
      (rest.1, r.2 :: rest.2)

end Tracker

namespace Tracker

/-! ## Retention-capped history (spec §4.3) -/

/-- The spec's data model (§3): one timestamped price observation. -/
structure PriceRecord where
  timestamp : String
  price : ℚ
  product_id : String
deriving DecidableEq

/-- Modelled from the spec: `save_price` in `src/tracker.py` appends
unconditionally and implements no retention cap; the capped variant of
`append` exists only as the spec's contract ("adds a new record; if a
retention cap is configured, trims oldest records beyond the cap",
"optional cap keeps only the most recent N records"). Appends `r` and
keeps the `cap` most recent records. -/
def appendCapped (cap : Nat) (h : List PriceRecord) (r : PriceRecord) : List PriceRecord :=
  let h2 := h ++ [r]
  h2.drop (h2.length - cap)

/-- Appending a batch of records through `appendCapped`. -/
def appendAllCapped (cap : Nat) (h : List PriceRecord) (rs : List PriceRecord) :
    List PriceRecord :=
  rs.foldl (appendCapped cap) h

end Tracker

namespace Tracker

/-! ## Well-formedness of stored fields

`save_price` joins fields with `" | "` and one line per record; a field
round-trips through `load_last_price`'s line parsing when it contains
no `'|'` and no newline and carries no surrounding whitespace (the
configured product names and the `"%d/%m/%Y %H:%M:%S"` timestamps all
satisfy this). -/

def wfField (s : String) : Prop :=
  s ≠ "" ∧
  s.data.dropWhile Char.isWhitespace = s.data ∧
  s.data.reverse.dropWhile Char.isWhitespace = s.data.reverse ∧
  '|' ∉ s.data ∧ '\n' ∉ s.data

instance (s : String) : Decidable (wfField s) := by
  unfold wfField; infer_instance

/-- The per-line result of `load_last_price`'s scan: the price a single
(already stripped) line contributes for `product_name`, `none` when the
line is skipped (wrong number of `'|'` fields, different product, or a
price field `float` rejects). -/
def line_value? (product_name line : String) : Option ℚ :=
  match pySplitOnChar '|' line with
  | [_, p1, p2] => if pyStrip p1 = product_name then pyFloat? (pyStrip p2) else none
  | _ => none

/-- The history file produced by a sequence of `save_price` calls. -/
def build_store (init : List String) (recs : List PriceRecord) : List String :=
  recs.foldl (fun ls r => save_price ls r.product_id r.timestamp r.price) init

/-- The most recently appended price for `name` in a record sequence. -/
def last_price_of (name : String) (recs : List PriceRecord) : Option ℚ :=
  ((recs.filter (fun r => r.product_id == name)).getLast?).map PriceRecord.price

/-- A record `save_price` can faithfully persist: well-formed name and
timestamp, and a price whose Python `str`/`float` round-trip is exact
(true of every value `float` actually produces). -/
def wfRecord (r : PriceRecord) : Prop :=
  wfField r.product_id ∧ wfField r.timestamp ∧
  pyFloat? (formatPyFloat r.price) = some r.price

end Tracker

namespace Tracker

/-! ## Helper lemmas -/

lemma dropWhile_eq_self_of_forall {p : Char → Bool} {l : List Char}
    (h : ∀ c ∈ l, ¬ p c) : l.dropWhile p = l := by
  cases l with
  | nil => rfl
  | cons c cs => exact List.dropWhile_cons_of_neg (h c (List.mem_cons_self c cs))

lemma head_not_ws_of_dropWhile_self {c : Char} {rest : List Char}
    (h : (c :: rest).dropWhile Char.isWhitespace = c :: rest) : ¬ c.isWhitespace := by
  intro hc
  rw [List.dropWhile_cons_of_pos hc] at h
  have hs := (List.dropWhile_sublist (l := rest) Char.isWhitespace).length_le
  rw [h] at hs
  simp at hs

lemma data_ne_nil_of_ne_empty {s : String} (h : s ≠ "") : s.data ≠ [] := by
  intro hd
  exact h (String.ext hd)

lemma pyStrip_eq_self {s : String}
    (h1 : s.data.dropWhile Char.isWhitespace = s.data)
    (h2 : s.data.reverse.dropWhile Char.isWhitespace = s.data.reverse) :
    pyStrip s = s := by
  unfold pyStrip
  rw [h1, h2, List.reverse_reverse]

lemma wfField.strip {s : String} (h : wfField s) : pyStrip s = s :=
  pyStrip_eq_self h.2.1 h.2.2.1

/-- Stripping undoes the `" "` padding around a well-formed middle field. -/
lemma pyStrip_pad {s : String} (h : wfField s) :
    pyStrip ⟨' ' :: s.data ++ [' ']⟩ = s := by
  obtain ⟨c, rest, hcr⟩ : ∃ c rest, s.data = c :: rest := by
    cases hd : s.data with
    | nil => exact absurd hd (data_ne_nil_of_ne_empty h.1)
    | cons c rest => exact ⟨c, rest, rfl⟩
  have hc : ¬ c.isWhitespace := head_not_ws_of_dropWhile_self (hcr ▸ h.2.1)
  apply String.ext
  show (((' ' :: s.data ++ [' ']).dropWhile Char.isWhitespace).reverse.dropWhile
      Char.isWhitespace).reverse = s.data
  have e1 : (' ' :: s.data ++ [' ']).dropWhile Char.isWhitespace = s.data ++ [' '] := by
    rw [List.cons_append, List.dropWhile_cons_of_pos (p := Char.isWhitespace) (a := ' ')
      (by decide), hcr, List.cons_append, List.dropWhile_cons_of_neg hc,
      ← List.cons_append, ← hcr]
  rw [e1, List.reverse_append, show ([' '] : List Char).reverse = [' '] from rfl,
    List.singleton_append,
    List.dropWhile_cons_of_pos (p := Char.isWhitespace) (a := ' ') (by decide),
    h.2.2.1, List.reverse_reverse]

/-- Stripping undoes a single leading `" "` before a well-formed field. -/
lemma pyStrip_space_cons {s : String} (h : wfField s) :
    pyStrip ⟨' ' :: s.data⟩ = s := by
  apply String.ext
  show (((' ' :: s.data).dropWhile Char.isWhitespace).reverse.dropWhile
      Char.isWhitespace).reverse = s.data
  rw [List.dropWhile_cons_of_pos (p := Char.isWhitespace) (a := ' ') (by decide),
    h.2.1, h.2.2.1, List.reverse_reverse]

end Tracker

namespace Tracker

/-! ### Characters of a formatted float -/

lemma digitChar_isDigit {d : Nat} (h : d < 10) : (Nat.digitChar d).isDigit := by
  interval_cases d <;> decide

lemma toDigitsCore_digits (fuel : Nat) :
    ∀ (n : Nat) (acc : List Char), (∀ c ∈ acc, c.isDigit) →
      ∀ c ∈ Nat.toDigitsCore 10 fuel n acc, c.isDigit := by
  induction fuel with
  | zero => intro n acc hacc c hc; exact hacc c hc
  | succ fuel ih =>
    intro n acc hacc c hc
    rw [Nat.toDigitsCore] at hc
    have hd : ∀ x ∈ Nat.digitChar (n % 10) :: acc, x.isDigit := by
      intro x hx
      rcases List.mem_cons.mp hx with rfl | hx
      · exact digitChar_isDigit (Nat.mod_lt _ (by norm_num))
      · exact hacc x hx
    by_cases hz : n / 10 = 0
    · rw [if_pos hz] at hc
      exact hd c hc
    · rw [if_neg hz] at hc
      exact ih _ _ hd c hc

lemma natRepr_digits (n : Nat) : ∀ c ∈ (toString n).data, c.isDigit := by
  show ∀ c ∈ Nat.toDigitsCore 10 (n + 1) n [], c.isDigit
  exact toDigitsCore_digits (n + 1) n [] (by simp)

lemma charOfNat_digit_isDigit {d : Nat} (h : d < 10) : (Char.ofNat (48 + d)).isDigit := by
  interval_cases d <;> decide

lemma fracDigitChars_digits {den : Nat} (hden : 0 < den) :
    ∀ (fuel r : Nat), r < den → ∀ c ∈ fracDigitChars den r fuel, c.isDigit := by
  intro fuel
  induction fuel with
  | zero => intro r _ c hc; simp [fracDigitChars] at hc
  | succ fuel ih =>
    intro r hr c hc
    rw [fracDigitChars] at hc
    by_cases hz : r = 0
    · rw [if_pos hz] at hc; simp at hc
    · rw [if_neg hz] at hc
      rcases List.mem_cons.mp hc with rfl | hc
      · refine charOfNat_digit_isDigit ?_
        have : r * 10 < den * 10 := by omega
        exact Nat.div_lt_of_lt_mul (by omega)
      · exact ih (r * 10 % den) (Nat.mod_lt _ hden) c hc

lemma formatPyFloat_chars (q : ℚ) :
    ∀ c ∈ (formatPyFloat q).data, c = '-' ∨ c = '.' ∨ c.isDigit := by
  intro c hc
  unfold formatPyFloat at hc
  simp only [String.data] at hc
  rcases List.mem_append.mp hc with hc | hc
  · rcases List.mem_append.mp hc with hc | hc
    · rcases em (q.num < 0) with hneg | hneg
      · rw [if_pos hneg] at hc
        simp at hc
        exact Or.inl hc
      · rw [if_neg hneg] at hc
        simp at hc
    · exact Or.inr (Or.inr (natRepr_digits _ c hc))
  · rcases List.mem_cons.mp hc with rfl | hc
    · exact Or.inr (Or.inl rfl)
    · right; right
      rcases em (fracDigitChars q.den (q.num.natAbs % q.den) 17 = []) with he | he
      · rw [if_pos he] at hc
        simp at hc
        subst hc
        decide
      · rw [if_neg he] at hc
        exact fracDigitChars_digits q.pos 17 _ (Nat.mod_lt _ q.pos) c hc

lemma formatChar_not_ws {c : Char} (h : c = '-' ∨ c = '.' ∨ c.isDigit) :
    ¬ c.isWhitespace := by
  intro hw
  have hw' : c = ' ' ∨ c = '\t' ∨ c = '\r' ∨ c = '\n' := by
    simpa [Char.isWhitespace, or_assoc] using hw
  rcases h with rfl | rfl | h
  · exact absurd hw (by decide)
  · exact absurd hw (by decide)
  · rcases hw' with rfl | rfl | rfl | rfl <;> exact absurd h (by decide)

lemma formatPyFloat_wf (q : ℚ) : wfField (formatPyFloat q) := by
  have hchars := formatPyFloat_chars q
  have hdot : '.' ∈ (formatPyFloat q).data := by
    unfold formatPyFloat
    simp
  refine ⟨?_, ?_, ?_, ?_, ?_⟩
  · intro he
    rw [he] at hdot
    simp at hdot
  · exact dropWhile_eq_self_of_forall (fun c hc => formatChar_not_ws (hchars c hc))
  · exact dropWhile_eq_self_of_forall
      (fun c hc => formatChar_not_ws (hchars c (List.mem_reverse.mp hc)))
  · intro hm
    rcases hchars _ hm with h | h | h <;> simp_all
  · intro hm
    rcases hchars _ hm with h | h | h <;> simp_all

end Tracker

namespace Tracker

/-! ### Parsing a record line back -/

lemma sepBar_data : (" | " : String).data = [' ', '|', ' '] := rfl

lemma wfField_exists_head {s : String} (h : wfField s) :
    ∃ c rest, s.data = c :: rest ∧ ¬ c.isWhitespace := by
  cases hd : s.data with
  | nil => exact absurd hd (data_ne_nil_of_ne_empty h.1)
  | cons c rest =>
    exact ⟨c, rest, rfl, head_not_ws_of_dropWhile_self (hd ▸ h.2.1)⟩

lemma wfField_exists_revhead {s : String} (h : wfField s) :
    ∃ c rest, s.data.reverse = c :: rest ∧ ¬ c.isWhitespace := by
  cases hd : s.data.reverse with
  | nil =>
    rw [List.reverse_eq_nil_iff] at hd
    exact absurd hd (data_ne_nil_of_ne_empty h.1)
  | cons c rest =>
    exact ⟨c, rest, rfl, head_not_ws_of_dropWhile_self (hd ▸ h.2.2.1)⟩

lemma record_line_ne_empty (name ts : String) (q : ℚ) : record_line name ts q ≠ "" := by
  intro he
  have hd := congrArg String.data he
  simp [record_line, sepBar_data] at hd

/-- A record line splits on `"|"` into exactly its three fields (with
the padding spaces), provided name and timestamp contain no `'|'`. -/
lemma splitOn_record (name ts : String) (q : ℚ)
    (hts : '|' ∉ ts.data) (hn : '|' ∉ name.data) :
    pySplitOnChar '|' (record_line name ts q) =
      [⟨ts.data ++ [' ']⟩, ⟨' ' :: name.data ++ [' ']⟩,
        ⟨' ' :: (formatPyFloat q).data⟩] := by
  have hfp : '|' ∉ (formatPyFloat q).data := (formatPyFloat_wf q).2.2.2.1
  have hD : (record_line name ts q).data =
      (ts.data ++ [' ']) ++ '|' ::
        ((' ' :: name.data ++ [' ']) ++ '|' :: (' ' :: (formatPyFloat q).data)) := by
    simp [record_line, sepBar_data]
  have mem1 : ∀ x ∈ ts.data ++ [' '], ¬((x == '|') = true) := by
    intro x hx hbe
    rw [beq_iff_eq] at hbe
    subst hbe
    rcases List.mem_append.mp hx with h | h
    · exact hts h
    · simp at h
  have mem2 : ∀ x ∈ ' ' :: name.data ++ [' '], ¬((x == '|') = true) := by
    intro x hx hbe
    rw [beq_iff_eq] at hbe
    subst hbe
    rcases List.mem_append.mp hx with h | h
    · rcases List.mem_cons.mp h with h | h
      · exact absurd h (by decide)
      · exact hn h
    · simp at h
  have mem3 : ∀ x ∈ ' ' :: (formatPyFloat q).data, ¬((x == '|') = true) := by
    intro x hx hbe
    rw [beq_iff_eq] at hbe
    subst hbe
    rcases List.mem_cons.mp hx with h | h
    · exact absurd h (by decide)
    · exact hfp h
  have e1 := List.splitOnP_first _ _ mem1 '|' (by simp)
    ((' ' :: name.data ++ [' ']) ++ '|' :: (' ' :: (formatPyFloat q).data))
  have e2 := List.splitOnP_first _ _ mem2 '|' (by simp) (' ' :: (formatPyFloat q).data)
  have e3 := List.splitOnP_eq_single _ _ mem3
  unfold pySplitOnChar
  simp only [List.splitOn]
  rw [hD, e1, e2, e3]
  rfl

/-- The line written for `(name, ts, q)` is read back as `some q` by the
per-line scan, when the `str`/`float` round-trip on `q` is exact. -/
lemma line_value?_record_self {name ts : String} {q : ℚ}
    (hn : wfField name) (hts : wfField ts)
    (hq : pyFloat? (formatPyFloat q) = some q) :
    line_value? name (record_line name ts q) = some q := by
  unfold line_value?
  rw [splitOn_record name ts q hts.2.2.2.1 hn.2.2.2.1]
  show (if pyStrip ⟨' ' :: name.data ++ [' ']⟩ = name then
    pyFloat? (pyStrip ⟨' ' :: (formatPyFloat q).data⟩) else none) = some q
  rw [pyStrip_pad hn, if_pos rfl, pyStrip_space_cons (formatPyFloat_wf q), hq]

/-- A record line for a different product contributes nothing. -/
lemma line_value?_record_other {name name' ts : String} {q : ℚ}
    (hn : wfField name') (hts : wfField ts) (hne : name' ≠ name) :
    line_value? name (record_line name' ts q) = none := by
  unfold line_value?
  rw [splitOn_record name' ts q hts.2.2.2.1 hn.2.2.2.1]
  show (if pyStrip ⟨' ' :: name'.data ++ [' ']⟩ = name then
    pyFloat? (pyStrip ⟨' ' :: (formatPyFloat q).data⟩) else none) = none
  rw [pyStrip_pad hn, if_neg hne]

/-- A record line is strip-invariant (its timestamp starts and its price
ends with non-whitespace). -/
lemma pyStrip_record_line {ts : String} (hts : wfField ts) (name : String) (q : ℚ) :
    pyStrip (record_line name ts q) = record_line name ts q := by
  obtain ⟨c, rest, hcr, hc⟩ := wfField_exists_head hts
  obtain ⟨d, rr, hdr, hd⟩ := wfField_exists_revhead (formatPyFloat_wf q)
  apply pyStrip_eq_self
  · have hD : (record_line name ts q).data =
        c :: (rest ++ (" | " ++ name ++ " | " ++ formatPyFloat q).data) := by
      simp [record_line, hcr, sepBar_data]
    rw [hD, List.dropWhile_cons_of_neg hc]
  · have hD : (record_line name ts q).data.reverse =
        d :: (rr ++ (ts ++ " | " ++ name ++ " | ").data.reverse) := by
      simp only [record_line, String.data_append, List.reverse_append, ← List.append_assoc]
      rw [hdr]
      simp
    rw [hD, List.dropWhile_cons_of_neg hd]

end Tracker

namespace Tracker

/-! ### The scan as a `findSome?` -/

lemma load_last_from_cons (name l : String) (rest : List String) :
    load_last_from name (l :: rest) =
      match line_value? name l with
      | some v => some v
      | none => load_last_from name rest := by
  rcases h : pySplitOnChar '|' l with _ | ⟨a, _ | ⟨b, _ | ⟨c, _ | ⟨d, t⟩⟩⟩⟩
  · simp only [load_last_from, line_value?, h]
  · simp only [load_last_from, line_value?, h]
  · simp only [load_last_from, line_value?, h]
  · simp only [load_last_from, line_value?, h]
    by_cases hb : pyStrip b = name
    · simp only [if_pos hb]
    · simp only [if_neg hb]
  · simp only [load_last_from, line_value?, h]

lemma load_last_from_eq (name : String) (lines : List String) :
    load_last_from name lines = lines.findSome? (line_value? name) := by
  induction lines with
  | nil => rfl
  | cons l rest ih =>
    rw [load_last_from_cons, List.findSome?_cons]
    cases line_value? name l <;> simp [ih]

lemma load_last_price_some_eq (raw : List String) (name : String) :
    load_last_price (some raw) name =
      (((raw.map pyStrip).filter (fun l => l ≠ "")).reverse).findSome? (line_value? name) := by
  show load_last_from name _ = _
  rw [load_last_from_eq]

lemma load_last_price_append (raw1 raw2 : List String) (name : String) :
    load_last_price (some (raw1 ++ raw2)) name =
      (load_last_price (some raw2) name).or (load_last_price (some raw1) name) := by
  rw [load_last_price_some_eq, load_last_price_some_eq, load_last_price_some_eq,
    List.map_append, List.filter_append, List.reverse_append, List.findSome?_append]

/-- After `save_price`, the freshly appended record is the last one the
scan sees for its product. -/
lemma load_after_save (lines : List String) {name ts : String} {p : ℚ}
    (hn : wfField name) (hts : wfField ts)
    (hp : pyFloat? (formatPyFloat p) = some p) :
    load_last_price (some (save_price lines name ts p)) name = some p := by
  unfold save_price
  rw [load_last_price_append]
  have h1 : load_last_price (some [record_line name ts p]) name = some p := by
    rw [load_last_price_some_eq]
    have hne := record_line_ne_empty name ts p
    simp [pyStrip_record_line hts, hne, line_value?_record_self hn hts hp]
  rw [h1]
  rfl

/-- Appending a record for a different product does not change what the
scan returns for `name`. -/
lemma load_after_save_other (lines : List String) {name name' ts : String} {p : ℚ}
    (hn : wfField name') (hts : wfField ts) (hne : name' ≠ name) :
    load_last_price (some (save_price lines name' ts p)) name =
      load_last_price (some lines) name := by
  unfold save_price
  rw [load_last_price_append]
  have h1 : load_last_price (some [record_line name' ts p]) name = none := by
    rw [load_last_price_some_eq]
    have hne' := record_line_ne_empty name' ts p
    simp [pyStrip_record_line hts, hne', line_value?_record_other hn hts hne]
  rw [h1]
  rfl

/-- Lines that contribute nothing for `name` (malformed, other product,
or unparsable price) never change the result of the scan. -/
lemma load_with_bad_suffix (lines bads : List String) (name : String)
    (hbad : ∀ b ∈ bads, line_value? name (pyStrip b) = none) :
    load_last_price (some (lines ++ bads)) name = load_last_price (some lines) name := by
  rw [load_last_price_append]
  have h1 : load_last_price (some bads) name = none := by
    rw [load_last_price_some_eq]
    rw [List.findSome?_eq_none_iff]
    intro x hx
    rw [List.mem_reverse, List.mem_filter] at hx
    obtain ⟨b, hb, rfl⟩ := List.mem_map.mp hx.1
    exact hbad b hb
  rw [h1]
  rfl

/-! ### Loading from a store built by `save_price` alone -/

lemma build_store_append (init : List String) (recs : List PriceRecord) (r : PriceRecord) :
    build_store init (recs ++ [r]) =
      save_price (build_store init recs) r.product_id r.timestamp r.price := by
  simp [build_store, List.foldl_append]

lemma last_price_of_append (name : String) (recs : List PriceRecord) (r : PriceRecord) :
    last_price_of name (recs ++ [r]) =
      if r.product_id = name then some r.price else last_price_of name recs := by
  by_cases h : r.product_id = name
  · simp [last_price_of, List.filter_append, h]
  · simp [last_price_of, List.filter_append, h]

/-- `load_last_price` over a store written entirely by `save_price`
returns the price of the most recent record for the product. -/
lemma load_build_store (recs : List PriceRecord) (name : String)
    (h : ∀ r ∈ recs, wfRecord r) :
    load_last_price (some (build_store [] recs)) name = last_price_of name recs := by
  revert h
  induction recs using List.reverseRecOn with
  | nil => intro h; rfl
  | append_singleton recs r ih =>
    intro h
    have hr : wfRecord r := h r (by simp)
    have hrec : ∀ x ∈ recs, wfRecord x := fun x hx => h x (by simp [hx])
    rw [build_store_append, last_price_of_append]
    by_cases hcase : r.product_id = name
    · rw [if_pos hcase]
      rw [← hcase]
      exact load_after_save _ hr.1 hr.2.1 hr.2.2
    · rw [if_neg hcase]
      rw [load_after_save_other _ hr.1 hr.2.1 hcase]
      exact ih hrec

end Tracker

namespace Tracker

/-! ### Retention-cap lemmas -/

lemma appendCapped_eq (cap : Nat) (h : List PriceRecord) (r : PriceRecord) :
    appendCapped cap h r = (h ++ [r]).drop ((h ++ [r]).length - cap) := rfl

lemma appendCapped_length_le (cap : Nat) (h : List PriceRecord) (r : PriceRecord) :
    (appendCapped cap h r).length ≤ cap := by
  simp [appendCapped]
  omega

lemma appendAllCapped_eq (cap : Nat) (rs : List PriceRecord) :
    ∀ h : List PriceRecord, h.length ≤ cap →
      appendAllCapped cap h rs = (h ++ rs).drop ((h ++ rs).length - cap) := by
  induction rs with
  | nil =>
    intro h hh
    simp only [appendAllCapped, List.foldl_nil, List.append_nil]
    rw [Nat.sub_eq_zero_of_le hh, List.drop_zero]
  | cons r rs ih =>
    intro h hh
    show appendAllCapped cap (appendCapped cap h r) rs = _
    rw [ih _ (appendCapped_length_le cap h r), appendCapped_eq]
    have hmove : (h ++ [r]).drop ((h ++ [r]).length - cap) ++ rs =
        ((h ++ [r]) ++ rs).drop ((h ++ [r]).length - cap) :=
      (List.drop_append_of_le_length (by simp)).symm
    rw [hmove, List.drop_drop]
    have hl : (h ++ [r]) ++ rs = h ++ r :: rs := by simp
    rw [hl]
    congr 1
    simp [List.length_append]
    omega

instance (r : PriceRecord) : Decidable (wfRecord r) := by
  unfold wfRecord; infer_instance

lemma checkProduct_fetch_failed {store : Option (List String)} {p : ProductInput}
    (h : p.fetched = none) : checkProduct store p = (store, false) := by
  unfold checkProduct
  rw [h]

lemma checkProduct_parse_failed {store : Option (List String)} {p : ProductInput}
    {texts : List (Option String)} (h : p.fetched = some texts)
    (hp : parse_price texts = none) : checkProduct store p = (store, false) := by
  unfold checkProduct
  simp only [h, hp]

lemma runAll_length (store : Option (List String)) (ps : List ProductInput) :
    ((runAll store ps).2).length = ps.length := by
  induction ps generalizing store with
  | nil => rfl
  | cons p ps ih => simp [runAll, ih]

end Tracker

namespace Tracker

/-! ## Claim theorems -/

/-- C1 (counterexample): the round trip fails as literally stated "for
every product name": a product name containing the field separator
`'|'` makes the written line split into four parts, so
`load_last_price` skips it and the just-saved price is not returned. -/
theorem C1_counterexample :
    load_last_price (some (save_price [] "a|b" "22/10/2025 14:35:00" 90)) "a|b" = none ∧
    load_last_price (some (save_price [] "a|b" "22/10/2025 14:35:00" 90)) "a|b" ≠
      some 90 := by
  decide

/-- C1 (amended): for every well-formed product name and timestamp (no
`'|'`, no newline, no surrounding whitespace, nonempty) and every price
whose Python `str`/`float` round-trip is exact, `save_price` followed by
`load_last_price` on the same name returns exactly the price just
appended, whatever the prior contents of the history file. -/
theorem C1_round_trip (lines : List String) (name ts : String) (p : ℚ)
    (hn : wfField name) (hts : wfField ts)
    (hp : pyFloat? (formatPyFloat p) = some p) :
    load_last_price (some (save_price lines name ts p)) name = some p :=
  load_after_save lines hn hts hp

/-- C1 witness: the round trip at a configured product name. -/
theorem C1_round_trip_witness :
    load_last_price
      (some (save_price [] "HITACHI 2502195" "22/10/2025 14:35:00" 90))
      "HITACHI 2502195" = some 90 :=
  C1_round_trip [] "HITACHI 2502195" "22/10/2025 14:35:00" 90
    (by decide) (by decide) (by decide)

/-- C2: with retention cap `N`, appending `N + k` records into an empty
history leaves exactly the `N` most recent ones.
(`src/tracker.py` implements no cap; `appendCapped` is modelled from the
spec's contract for the capped `append`.) -/
theorem C2_retention_cap (N k : Nat) (rs : List PriceRecord)
    (hlen : rs.length = N + k) :
    appendAllCapped N [] rs = rs.drop k ∧ (appendAllCapped N [] rs).length = N := by
  have h := appendAllCapped_eq N rs [] (by simp)
  simp only [List.nil_append] at h
  rw [hlen] at h
  have hk : N + k - N = k := by omega
  rw [hk] at h
  refine ⟨h, ?_⟩
  rw [h]
  simp [hlen]

/-- C2 witness: cap 2, three records appended, the two most recent
remain. -/
theorem C2_retention_cap_witness :
    appendAllCapped 2 []
        [⟨"t1", 1, "P"⟩, ⟨"t2", 2, "P"⟩, ⟨"t3", 3, "P"⟩] =
      [⟨"t2", 2, "P"⟩, ⟨"t3", 3, "P"⟩] ∧
    (appendAllCapped 2 []
        [⟨"t1", 1, "P"⟩, ⟨"t2", 2, "P"⟩, ⟨"t3", 3, "P"⟩]).length = 2 := by
  have h := C2_retention_cap 2 1
    [⟨"t1", 1, "P"⟩, ⟨"t2", 2, "P"⟩, ⟨"t3", 3, "P"⟩] (by decide)
  exact ⟨by rw [h.1]; decide, h.2⟩

/-- C3: with a prior record `l` and current price `c`, the orchestrator
takes the notification path iff `c - l < 0`. -/
theorem C3_drop_notification (store : Option (List String)) (p : ProductInput)
    (texts : List (Option String)) (current l : ℚ)
    (hf : p.fetched = some texts) (hc : parse_price texts = some current)
    (hl : load_last_price store p.name = some l) :
    (checkProduct store p).2 = true ↔ current - l < 0 := by
  unfold checkProduct
  simp only [hf, hc, hl]
  simp

/-- C3 witness: last = 100.00, current = 90.00 notifies
(diff = -10.00 < 0); current = 110.00 does not. -/
theorem C3_drop_notification_witness :
    (checkProduct (some (save_price [] "P1" "01/01/2025 00:00:00" 100))
      ⟨"P1", "02/01/2025 00:00:00", some [some "90.0 €"]⟩).2 = true ∧
    (checkProduct (some (save_price [] "P1" "01/01/2025 00:00:00" 100))
      ⟨"P1", "02/01/2025 00:00:00", some [some "110.0 €"]⟩).2 = false := by
  constructor
  · exact (C3_drop_notification _ _ [some "90.0 €"] 90 100 rfl (by decide)
      (by decide)).mpr (by decide)
  · have h := C3_drop_notification
      (some (save_price [] "P1" "01/01/2025 00:00:00" 100))
      ⟨"P1", "02/01/2025 00:00:00", some [some "110.0 €"]⟩
      [some "110.0 €"] 110 100 rfl (by decide) (by decide)
    have h2 : ¬((110 : ℚ) - 100 < 0) := by decide
    exact Bool.eq_false_iff.mpr (fun hb => h2 (h.mp hb))

/-- C5: with no prior record for the product, a successful check sends
no notification — whatever the price's value — and appends the current
price, which the next load then sees. -/
theorem C5_first_run (store : Option (List String)) (p : ProductInput)
    (texts : List (Option String)) (current : ℚ)
    (hf : p.fetched = some texts) (hc : parse_price texts = some current)
    (hl : load_last_price store p.name = none)
    (hn : wfField p.name) (hts : wfField p.timestamp)
    (hp : pyFloat? (formatPyFloat current) = some current) :
    (checkProduct store p).2 = false ∧
    load_last_price (checkProduct store p).1 p.name = some current := by
  unfold checkProduct
  simp only [hf, hc, hl]
  exact ⟨by trivial, load_after_save _ hn hts hp⟩

/-- C5 witness: an absent history file, price 5. -/
theorem C5_first_run_witness :
    (checkProduct none ⟨"P1", "01/01/2025 00:00:00", some [some "5.0 €"]⟩).2 = false ∧
    load_last_price
      (checkProduct none ⟨"P1", "01/01/2025 00:00:00", some [some "5.0 €"]⟩).1
      "P1" = some 5 :=
  C5_first_run none ⟨"P1", "01/01/2025 00:00:00", some [some "5.0 €"]⟩
    [some "5.0 €"] 5 rfl (by decide) rfl (by decide) (by decide) (by decide)

/-- C6: `load_last_price` returns `none` for an absent file, returns
`none` (rather than failing — the embedding is a total function) when no
line of the file parses as a record for the product, and over a store
written by `save_price` it returns the most recently appended record's
price for the product. -/
theorem C6_load_last (name : String) (recs : List PriceRecord) (corrupt : List String) :
    load_last_price none name = none ∧
    ((∀ b ∈ corrupt, line_value? name (pyStrip b) = none) →
      load_last_price (some corrupt) name = none) ∧
    ((∀ r ∈ recs, wfRecord r) →
      load_last_price (some (build_store [] recs)) name = last_price_of name recs) := by
  refine ⟨rfl, ?_, load_build_store recs name⟩
  intro hbad
  rw [load_last_price_some_eq, List.findSome?_eq_none_iff]
  intro x hx
  rw [List.mem_reverse, List.mem_filter] at hx
  obtain ⟨b, hb, rfl⟩ := List.mem_map.mp hx.1
  exact hbad b hb

/-- C6 witness: an absent store, an all-corrupt store, and a two-record
store for product `"P1"` whose latest record (price 90) is returned. -/
theorem C6_load_last_witness :
    load_last_price none "P1" = none ∧
    load_last_price (some ["garbage", "1|2", "a | b | notanumber"]) "P1" = none ∧
    load_last_price
      (some (build_store []
        [⟨"01/01/2025 00:00:00", 100, "P1"⟩, ⟨"02/01/2025 00:00:00", 90, "P1"⟩]))
      "P1" =
      last_price_of "P1"
        [⟨"01/01/2025 00:00:00", 100, "P1"⟩, ⟨"02/01/2025 00:00:00", 90, "P1"⟩] := by
  have h := C6_load_last "P1"
    [⟨"01/01/2025 00:00:00", 100, "P1"⟩, ⟨"02/01/2025 00:00:00", 90, "P1"⟩]
    ["garbage", "1|2", "a | b | notanumber"]
  exact ⟨h.1, h.2.1 (by decide), h.2.2 (by decide)⟩

/-- C7: a product whose fetch or extraction fails contributes nothing:
the loop continues with the remaining products exactly as if it had
started there (store unchanged, no notification), and the run processes
every configured product (one outcome per product, and `runAll` is a
total function — the run always reaches the end of `main`). -/
theorem C7_independent_failures (store : Option (List String)) (p : ProductInput)
    (ps : List ProductInput)
    (hfail : p.fetched = none ∨
      ∃ texts, p.fetched = some texts ∧ parse_price texts = none) :
    runAll store (p :: ps) = ((runAll store ps).1, false :: (runAll store ps).2) ∧
    ∀ (store' : Option (List String)) (ps' : List ProductInput),
      ((runAll store' ps').2).length = ps'.length := by
  have hc : checkProduct store p = (store, false) := by
    rcases hfail with h | ⟨texts, hf, hp⟩
    · exact checkProduct_fetch_failed h
    · exact checkProduct_parse_failed hf hp
  exact ⟨by simp [runAll, hc], runAll_length⟩

/-- C7 witness: the first product's page has no parsable price; the
second product is still checked (its price is recorded). -/
theorem C7_independent_failures_witness :
    runAll none
        [⟨"P1", "01/01/2025 00:00:00", some [some "no price here"]⟩,
         ⟨"P2", "01/01/2025 00:00:00", some [some "7.0 €"]⟩] =
      ((runAll none [⟨"P2", "01/01/2025 00:00:00", some [some "7.0 €"]⟩]).1,
        false :: (runAll none [⟨"P2", "01/01/2025 00:00:00", some [some "7.0 €"]⟩]).2) ∧
    ((runAll none
        [⟨"P1", "01/01/2025 00:00:00", some [some "no price here"]⟩,
         ⟨"P2", "01/01/2025 00:00:00", some [some "7.0 €"]⟩]).2).length = 2 := by
  have h := C7_independent_failures none
    ⟨"P1", "01/01/2025 00:00:00", some [some "no price here"]⟩
    [⟨"P2", "01/01/2025 00:00:00", some [some "7.0 €"]⟩]
    (Or.inr ⟨[some "no price here"], rfl, by decide⟩)
  exact ⟨h.1, h.2 none _⟩

/-- C8: body decoding never fails: an unrecognized `Content-Encoding`
falls back to `response.text`; a brotli-marked body whose decompression
raises falls back to the raw bytes decoded as text; a gzip-marked body
whose decompression raises falls back to `response.text`. (The
embedding `fetch_decode` is a total function: no exception escapes.) -/
theorem C8_decode_fallback (enc content text : String) (br gz : Option String) :
    (hasSubstr enc "br" = false → hasSubstr enc "gzip" = false →
      fetch_decode enc content text br gz = text) ∧
    (hasSubstr enc "br" = true →
      fetch_decode enc content text none gz = content) ∧
    (hasSubstr enc "br" = false → hasSubstr enc "gzip" = true →
      fetch_decode enc content text br none = text) := by
  refine ⟨?_, ?_, ?_⟩
  · intro h1 h2
    simp [fetch_decode, h1, h2]
  · intro h1
    simp [fetch_decode, h1]
  · intro h1 h2
    simp [fetch_decode, h1, h2]

/-- C8 witness: encodings `"identity"`, `"br"` and `"gzip"`, the latter
two with failing decompression. -/
theorem C8_decode_fallback_witness :
    fetch_decode "identity" "rawbytes" "plain" none none = "plain" ∧
    fetch_decode "br" "rawbytes" "plain" none none = "rawbytes" ∧
    fetch_decode "gzip" "rawbytes" "plain" none none = "plain" := by
  refine ⟨?_, ?_, ?_⟩
  · exact (C8_decode_fallback "identity" "rawbytes" "plain" none none).1
      (by decide) (by decide)
  · exact (C8_decode_fallback "br" "rawbytes" "plain" none none).2.1 (by decide)
  · exact (C8_decode_fallback "gzip" "rawbytes" "plain" none none).2.2
      (by decide) (by decide)

/-- C9 (counterexample): nothing enforces `price > 0`. A page whose
price element reads `"0 €"` parses to `0`, which the run persists — the
claimed invariant fails at this input. -/
theorem C9_counterexample :
    parse_price [some "0 €"] = some 0 ∧
    load_last_price
      (checkProduct none ⟨"HITACHI 2502195", "22/10/2025 14:35:00", some [some "0 €"]⟩).1
      "HITACHI 2502195" = some 0 ∧
    ¬ ((0 : ℚ) > 0) := by
  refine ⟨by decide, by decide, by decide⟩

/-- C9 (amended): the persisted price is exactly the extractor's
output; it is strictly positive precisely when the extracted value is —
positivity is inherited from the parsed text, not enforced by the
code. -/
theorem C9_persisted_price (store : Option (List String)) (p : ProductInput)
    (texts : List (Option String)) (current : ℚ)
    (hf : p.fetched = some texts) (hc : parse_price texts = some current)
    (hn : wfField p.name) (hts : wfField p.timestamp)
    (hp : pyFloat? (formatPyFloat current) = some current) (hpos : 0 < current) :
    load_last_price (checkProduct store p).1 p.name = some current ∧ 0 < current := by
  unfold checkProduct
  simp only [hf, hc]
  exact ⟨load_after_save _ hn hts hp, hpos⟩

/-- C9 witness: price text `"79.99 €"`. -/
theorem C9_persisted_price_witness :
    load_last_price
      (checkProduct none
        ⟨"HITACHI 2502195", "22/10/2025 14:35:00", some [some "79.99 €"]⟩).1
      "HITACHI 2502195" = some (mkRat 7999 100) ∧ (0 : ℚ) < mkRat 7999 100 :=
  C9_persisted_price none
    ⟨"HITACHI 2502195", "22/10/2025 14:35:00", some [some "79.99 €"]⟩
    [some "79.99 €"] (mkRat 7999 100) rfl (by decide) (by decide) (by decide)
    (by decide) (by decide)

/-- C10: the scan skips malformed lines individually: whatever
non-contributing lines (wrong field count, other product, unparsable
price — including blank or truncated trailing garbage) follow a saved
record, `load_last_price` still returns that record's price; corruption
after a valid record neither hides it nor empties the store. -/
theorem C10_bad_lines_skipped (lines bads : List String) (name ts : String) (p : ℚ)
    (hn : wfField name) (hts : wfField ts)
    (hp : pyFloat? (formatPyFloat p) = some p)
    (hbad : ∀ b ∈ bads, line_value? name (pyStrip b) = none) :
    load_last_price (some (save_price lines name ts p ++ bads)) name = some p := by
  rw [load_with_bad_suffix _ _ _ hbad]
  exact load_after_save lines hn hts hp

/-- C10 witness: a saved record followed by a truncated line, a
wrong-product line and a non-numeric-price line is still found. -/
theorem C10_bad_lines_skipped_witness :
    load_last_price
      (some (save_price [] "P1" "01/01/2025 00:00:00" 42 ++
        ["01/01/2025 00:0", "x | P2 | 3.0", "t | P1 | n/a"]))
      "P1" = some 42 :=
  C10_bad_lines_skipped [] ["01/01/2025 00:0", "x | P2 | 3.0", "t | P1 | n/a"]
    "P1" "01/01/2025 00:00:00" 42 (by decide) (by decide) (by decide) (by decide)

end Tracker

namespace Tracker

/-! ### Comma-decimal extraction (C4) -/

lemma map_id_of {α : Type} {g : α → α} {l : List α} (h : ∀ x ∈ l, g x = x) :
    l.map g = l := by
  induction l with
  | nil => rfl
  | cons a l ih =>
    rw [List.map_cons, h a (List.mem_cons_self a l),
      ih (fun x hx => h x (List.mem_cons_of_mem a hx))]

lemma digit_ne {c d : Char} (hc : c.isDigit) (hd : ¬ d.isDigit) : c ≠ d :=
  fun e => hd (e ▸ hc)

lemma ne_empty_of_data_ne_nil {s : String} (h : s.data ≠ []) : s ≠ "" :=
  fun e => h (String.ext_iff.mp e)

/-- C4 (amended): the extractor handles a comma decimal separator, but
only in the absence of a `'.'` thousands separator: for every integer
digit string `i` and fraction digit string `f`, the selector text
`"{i},{f} €"` parses to the decimal `i.f`; the spec's example
`"1.234,56 €"` instead normalizes to the token `"1.234.56"`, which
`float` rejects (see the counterexample). -/
theorem C4_comma_decimal (i f : List Char)
    (hi : i ≠ []) (hid : ∀ c ∈ i, c.isDigit)
    (hfd : ∀ c ∈ f, c.isDigit) :
    parse_price [some ⟨i ++ ',' :: (f ++ [' ', '€'])⟩] =
      some (mkRat (digitsVal i * 10 ^ f.length + digitsVal f) (10 ^ f.length)) := by
  obtain ⟨c, i', rfl⟩ : ∃ c i', i = c :: i' := by
    cases i with
    | nil => exact absurd rfl hi
    | cons c i' => exact ⟨c, i', rfl⟩
  have hcd : c.isDigit := hid c (List.mem_cons_self c i')
  have hi'd : ∀ x ∈ i', x.isDigit := fun x hx => hid x (List.mem_cons_of_mem c hx)
  -- step 1: removing the currency sign
  have hcE : decide (c ≠ '€') = true := decide_eq_true (digit_ne hcd (by decide))
  have hiE : List.filter (fun x => decide (x ≠ '€')) i' = i' :=
    List.filter_eq_self.mpr
      (fun a ha => decide_eq_true (digit_ne (hi'd a ha) (by decide)))
  have hfE : List.filter (fun x => decide (x ≠ '€')) f = f :=
    List.filter_eq_self.mpr
      (fun a ha => decide_eq_true (digit_ne (hfd a ha) (by decide)))
  have h_remove : removeChar '€' ⟨(c :: i') ++ ',' :: (f ++ [' ', '€'])⟩ =
      ⟨(c :: i') ++ ',' :: (f ++ [' '])⟩ := by
    apply String.ext
    simp only [removeChar, List.filter_append, List.filter_cons, List.filter_nil,
      hcE, hiE, hfE]
    simp
  -- step 2: comma becomes period
  have hcC : (if c = ',' then '.' else c) = c := if_neg (digit_ne hcd (by decide))
  have hiC : List.map (fun x => if x = ',' then '.' else x) i' = i' :=
    map_id_of (fun x hx => if_neg (digit_ne (hi'd x hx) (by decide)))
  have hfC : List.map (fun x => if x = ',' then '.' else x) f = f :=
    map_id_of (fun x hx => if_neg (digit_ne (hfd x hx) (by decide)))
  have h_replace : replaceChar ',' '.' ⟨(c :: i') ++ ',' :: (f ++ [' '])⟩ =
      ⟨(c :: i') ++ '.' :: (f ++ [' '])⟩ := by
    apply String.ext
    simp only [replaceChar, List.map_append, List.map_cons, List.map_nil,
      hcC, hiC, hfC]
    simp
  -- step 3: the first whitespace token
  have h_tok_ne : ((c :: i') ++ '.' :: f) ≠ [] := by simp
  have h_nws : ∀ x ∈ (c :: i') ++ '.' :: f, ¬(Char.isWhitespace x = true) := by
    intro x hx
    rcases List.mem_append.mp hx with h | h
    · exact formatChar_not_ws (Or.inr (Or.inr (hid x h)))
    · rcases List.mem_cons.mp h with rfl | h
      · decide
      · exact formatChar_not_ws (Or.inr (Or.inr (hfd x h)))
  have h_split : pySplitWhitespace ⟨(c :: i') ++ '.' :: (f ++ [' '])⟩ =
      [⟨(c :: i') ++ '.' :: f⟩] := by
    have hD : ((c :: i') ++ '.' :: (f ++ [' '])) =
        ((c :: i') ++ '.' :: f) ++ ' ' :: [] := by simp
    have e1 := List.splitOnP_first _ _ h_nws ' ' (by decide) []
    have hkeep : decide (((c :: i') ++ '.' :: f) ≠ []) = true :=
      decide_eq_true h_tok_ne
    simp only [pySplitWhitespace, hD, e1, List.splitOnP_nil, List.filter_cons,
      hkeep]
    simp
  have h_token : price_token? ⟨(c :: i') ++ ',' :: (f ++ [' ', '€'])⟩ =
      some ⟨(c :: i') ++ '.' :: f⟩ := by
    unfold price_token?
    rw [h_remove, h_replace, h_split]
  -- step 4: float parsing of the token
  have h_strip : pyStrip ⟨(c :: i') ++ '.' :: f⟩ = ⟨(c :: i') ++ '.' :: f⟩ := by
    apply pyStrip_eq_self
    · exact dropWhile_eq_self_of_forall h_nws
    · exact dropWhile_eq_self_of_forall
        (fun x hx => h_nws x (List.mem_reverse.mp hx))
  have h_splitDot : (c :: (i' ++ '.' :: f)).splitOn '.' = [c :: i', f] := by
    rw [show c :: (i' ++ '.' :: f) = ((c :: i') ++ '.' :: f) by simp]
    simp only [List.splitOn]
    have mem1 : ∀ x ∈ c :: i', ¬((x == '.') = true) := by
      intro x hx hbe
      rw [beq_iff_eq] at hbe
      exact digit_ne (hid x hx) (by decide) hbe
    have mem2 : ∀ x ∈ f, ¬((x == '.') = true) := by
      intro x hx hbe
      rw [beq_iff_eq] at hbe
      exact digit_ne (hfd x hx) (by decide) hbe
    rw [List.splitOnP_first _ _ mem1 '.' (by simp) f,
      List.splitOnP_eq_single _ _ mem2]
  have hsign : pyFloatSign (c :: (i' ++ '.' :: f)) =
      (false, c :: (i' ++ '.' :: f)) := by
    simp only [pyFloatSign]
    rw [if_neg (digit_ne hcd (by decide)), if_neg (digit_ne hcd (by decide))]
  have hcond : ((c :: i') ≠ [] ∨ f ≠ []) ∧
      (c :: i').all Char.isDigit ∧ f.all Char.isDigit :=
    ⟨Or.inl (by simp), List.all_eq_true.mpr hid, List.all_eq_true.mpr hfd⟩
  have h_float : pyFloat? ⟨(c :: i') ++ '.' :: f⟩ =
      some (mkRat (digitsVal (c :: i') * 10 ^ f.length + digitsVal f)
        (10 ^ f.length)) := by
    have hD2 : (⟨(c :: i') ++ '.' :: f⟩ : String) = ⟨c :: (i' ++ '.' :: f)⟩ := by
      apply String.ext
      simp
    have h_strip2 : pyStrip ⟨c :: (i' ++ '.' :: f)⟩ = ⟨c :: (i' ++ '.' :: f)⟩ := by
      rw [← hD2]
      exact h_strip
    rw [hD2]
    simp only [pyFloat?, h_strip2, hsign, h_splitDot]
    rw [if_pos hcond]
    simp
  -- assemble
  have htext : (⟨(c :: i') ++ ',' :: (f ++ [' ', '€'])⟩ : String) ≠ "" :=
    ne_empty_of_data_ne_nil (by simp)
  show parse_price (some ⟨(c :: i') ++ ',' :: (f ++ [' ', '€'])⟩ :: []) = _
  simp only [parse_price, h_token, h_float, htext]
  simp

/-- C4 (counterexample): on the spec's own example `"1.234,56 €"` the
normalization produces the token `"1.234.56"` (the `'.'` thousands
separator is never removed), `float` rejects it, and extraction fails
instead of returning 1234.56. -/
theorem C4_counterexample :
    price_token? "1.234,56 €" = some "1.234.56" ∧
    pyFloat? "1.234.56" = none ∧
    parse_price [some "1.234,56 €"] = none ∧
    parse_price [some "1.234,56 €"] ≠ some (mkRat 123456 100) := by
  refine ⟨by decide, by decide, by decide, by decide⟩

/-- C4 witness: `"1234,56 €"` (no thousands separator) extracts to
1234.56. -/
theorem C4_comma_decimal_witness :
    parse_price [some "1234,56 €"] = some (mkRat 123456 100) := by
  have h := C4_comma_decimal ['1', '2', '3', '4'] ['5', '6']
    (by decide) (by decide) (by decide)
  simpa using h

end Tracker
